import Mathlib

/-!
Verification development for the SpanishPro-Etymo single-page application
(`src/EtymoApp.jsx`).  The definitions below are a shallow embedding of the
non-presentation logic of the component `SpanishEtymologyAnalyzer`:

* the response cleanup `aiResponse.replace(/```json\s*|\s*```/g, '').trim()`
  (line 113) and the normalizer `safeAnalysis` (lines 117-124);
* the recent-searches update (line 129) and its initial value (line 9);
* the voice filter and selection of `loadVoices` (lines 22-44);
* the `analyzeWord` control flow (lines 46-144): input gate, fetch outcome,
  JSON parse outcome, error taxonomy of the catch block (lines 132-140);
* the render-boundary expressions `(analysis.relatedEnglishWords || [])`
  (line 402) and `(analysis.sampleSentences || [])` (line 454).

Strings are modelled as `List Char`.  Host builtins (the fetch transport and
`JSON.parse`) are modelled as explicit parameters / outcome types; everything
the component itself computes is translated directly from the source.
-/

/-- Strings of the JavaScript program, modelled as lists of characters. -/
abbrev Str := List Char

/-- The character class `\s` of JavaScript regular expressions (ECMAScript
WhiteSpace plus LineTerminator); `String.prototype.trim` strips exactly the
same set of characters. -/
def isWs (c : Char) : Bool :=
  c == ' ' || c == '\t' || c == '\n' || c == '\r' || c == '\x0b' || c == '\x0c' ||
  c == '\u00a0' || c == '\u1680' || (0x2000 ≤ c.toNat && c.toNat ≤ 0x200a) ||
  c == '\u2028' || c == '\u2029' || c == '\u202f' || c == '\u205f' ||
  c == '\u3000' || c == '\ufeff'

/-- Predicate `startsWith pat l`: holds when `pat` is a prefix of `l` (the observable
behaviour of JavaScript `String.prototype.startsWith`). -/
def startsWith : Str → Str → Bool
  | [], _ => true
  | _ :: _, [] => false
  | p :: ps, c :: cs => p == c && startsWith ps cs

/-- Predicate `containsSub hay pat`: holds when `pat` occurs as a contiguous substring of
`hay` (the observable behaviour of JavaScript `String.prototype.includes`). -/
def containsSub : Str → Str → Bool
  | [], pat => startsWith pat []
  | c :: t, pat => startsWith pat (c :: t) || containsSub t pat

/-- The literal `"```json"` matched by the first alternative of the cleanup
regular expression on line 113. -/
def fenceJson : Str := ['\x60', '\x60', '\x60', 'j', 's', 'o', 'n']

/-- The literal `"```"` matched by the second alternative of the cleanup
regular expression on line 113. -/
def fenceTicks : Str := ['\x60', '\x60', '\x60']

/-- The text `"\n```"` appended when a payload is wrapped in a markdown
fence. -/
def closeFence : Str := '\n' :: fenceTicks

/-- Fuel-indexed scan of the global replace
`.replace(/```json\s*|\s*```/g, '')` of line 113.  At each position the first
alternative `"```json" + \s*` is tried first; otherwise the second
alternative matches a (possibly empty) whitespace run followed immediately by
`"```"`; otherwise the character is kept and scanning advances by one.  Each
successful match consumes at least one character, so fuel equal to the length
of the list is always sufficient. -/
def stripAux : Nat → Str → Str
  | 0, l => l
  | _ + 1, [] => []
  | fuel + 1, c :: cs =>
    if startsWith fenceJson (c :: cs) then
      stripAux fuel (List.dropWhile isWs (List.drop 7 (c :: cs)))
    else if startsWith fenceTicks (List.dropWhile isWs (c :: cs)) then
      stripAux fuel (List.drop 3 (List.dropWhile isWs (c :: cs)))
    else
      c :: stripAux fuel cs

/-- The global replace `.replace(/```json\s*|\s*```/g, '')` of line 113. -/
def stripFences (l : Str) : Str := stripAux l.length l

/-- Removal of trailing JavaScript whitespace. -/
def trimR (l : Str) : Str := (l.reverse.dropWhile isWs).reverse

/-- JavaScript `String.prototype.trim`: strip leading and trailing
whitespace. -/
def trimBoth (l : Str) : Str := trimR (l.dropWhile isWs)

/-- Cleanup `cleanedResponse` (line 113): fence removal followed by `.trim()`. -/
def cleanedResponse (s : Str) : Str := trimBoth (stripFences s)

/-- A payload wrapped in a markdown code fence with the `json` language tag:
`"```json\n" + s + "\n```"`. -/
def wrapJson (s : Str) : Str := fenceJson ++ '\n' :: (s ++ closeFence)

/-- A payload wrapped in a bare markdown code fence: `"```\n" + s + "\n```"`. -/
def wrapPlain (s : Str) : Str := fenceTicks ++ '\n' :: (s ++ closeFence)

/-- Dynamically typed JavaScript values as they can appear in a parsed JSON
payload (plus `undefined`, the result of reading an absent property).
Numbers are modelled as integers; no claim depends on non-integral numerics. -/
inductive JsValue where
  | undef
  | null
  | bool (b : Bool)
  | num (n : Int)
  | str (s : Str)
  | arr (elems : List JsValue)
  | obj (fields : List (Str × JsValue))

/-- JavaScript truthiness: `undefined`, `null`, `false`, `0`, and the empty
string are falsy; every other value (including every array and object) is
truthy. -/
def truthy : JsValue → Bool
  | .undef => false
  | .null => false
  | .bool b => b
  | .num n => !(n == 0)
  | .str s => !s.isEmpty
  | .arr _ => true
  | .obj _ => true

/-- The JavaScript expression `a || b`: yields `a` when `a` is truthy,
otherwise `b`. -/
def jsOr (a b : JsValue) : JsValue := if truthy a then a else b

/-- Property read on an object whose fields are listed most-recently-written
first: the first binding of the key wins, an absent key reads as
`undefined`. -/
def jsGet : List (Str × JsValue) → Str → JsValue
  | [], _ => .undef
  | (k, v) :: rest, key => if k == key then v else jsGet rest key

/-- Property key `relatedEnglishWords`. -/
def relKey : Str := "relatedEnglishWords".toList

/-- Property key `sampleSentences`. -/
def sampKey : Str := "sampleSentences".toList

/-- Property key `confidence`. -/
def confKey : Str := "confidence".toList

/-- Property key `languageFamily`. -/
def famKey : Str := "languageFamily".toList

/-- Property key `pronunciation`. -/
def pronKey : Str := "pronunciation".toList

/-- Property key `word`. -/
def wordKey : Str := "word".toList

/-- The normalizer `safeAnalysis` (lines 117-124):
`{...parsedAnalysis, relatedEnglishWords: parsedAnalysis.relatedEnglishWords
|| [], sampleSentences: ... || [], confidence: ... || 'medium',
languageFamily: ... || 'Romance', pronunciation: ... || word.trim()}`.
The five overriding bindings shadow the spread payload, whose remaining
fields pass through unchanged. -/
def safeAnalysis (p : List (Str × JsValue)) (word : Str) : List (Str × JsValue) :=
  (relKey, jsOr (jsGet p relKey) (.arr [])) ::
  (sampKey, jsOr (jsGet p sampKey) (.arr [])) ::
  (confKey, jsOr (jsGet p confKey) (.str "medium".toList)) ::
  (famKey, jsOr (jsGet p famKey) (.str "Romance".toList)) ::
  (pronKey, jsOr (jsGet p pronKey) (.str (trimBoth word))) :: p

/-- Outcome of `JSON.parse` on the cleaned response text: either an object
payload, or a thrown `SyntaxError` carrying an engine-chosen message.
`JSON.parse` is a host builtin, so it enters the model as a parameter. -/
inductive ParseOutcome where
  | ok (fields : List (Str × JsValue))
  | failure (msg : Str)

/-- The response-normalization pipeline of lines 113-124: clean the raw
completion text, parse it, and on success apply `safeAnalysis`. -/
def normalizeResponse (parse : Str → ParseOutcome) (t : Str) (word : Str) :
    Option (List (Str × JsValue)) :=
  match parse (cleanedResponse t) with
  | .ok fields => some (safeAnalysis fields word)
  | .failure _ => none

/-- The recent-searches update of line 129:
`[word.trim(), ...recentSearches.filter(s => s !== word.trim())].slice(0, 5)`. -/
def updateRecent (recent : List Str) (word : Str) : List Str :=
  (trimBoth word :: recent.filter (fun s => !(s == trimBoth word))).take 5

/-- Spec-side reference definition, following the words of the contract in
§4.3 of the specification: remove every existing occurrence of the exact
string from the list. -/
def removeAll : List Str → Str → List Str
  | [], _ => []
  | s :: rest, x => if s = x then removeAll rest x else s :: removeAll rest x

/-- The initial value of the `recentSearches` state (line 9). -/
def recentSearchesInit : List Str :=
  ["biblioteca".toList, "ventana".toList, "corazón".toList]

/-- A speech-synthesis voice as observed by the component: a BCP-47 language
tag and a display name. -/
structure Voice where
  lang : Str
  name : Str
deriving DecidableEq

/-- ASCII fragment of JavaScript `String.prototype.toLowerCase`, the only
part the voice predicates depend on. -/
def lowerChar (c : Char) : Char :=
  if 65 ≤ c.toNat ∧ c.toNat ≤ 90 then Char.ofNat (c.toNat + 32) else c

/-- Lower-casing of a name, character by character. -/
def lowerStr (s : Str) : Str := s.map lowerChar

/-- The filter predicate of `loadVoices` (lines 25-27):
`voice.lang.startsWith('es') || voice.name.toLowerCase().includes('spanish')`. -/
def voiceMatch (v : Voice) : Bool :=
  startsWith "es".toList v.lang || containsSub (lowerStr v.name) "spanish".toList

/-- The filtered catalog `spanishVoices` (lines 25-27). -/
def spanishVoices (voices : List Voice) : List Voice := voices.filter voiceMatch

/-- First-priority predicate of lines 31-33: language tag exactly `es-US` and
name containing `google` case-insensitively. -/
def esUSGoogle (v : Voice) : Bool :=
  v.lang == "es-US".toList && containsSub (lowerStr v.name) "google".toList

/-- Second-priority predicate of lines 33-35: language tag exactly `es-US`. -/
def esUSOnly (v : Voice) : Bool := v.lang == "es-US".toList

/-- JavaScript `a || b` on possibly-undefined voice values: a found voice is
always truthy, a missed `find` / out-of-range index is `undefined`. -/
def optOr (a b : Option Voice) : Option Voice :=
  match a with
  | some v => some v
  | none => b

/-- The selection `preferredVoice` of lines 31-35:
`spanishVoices.find(esUSGoogle) || spanishVoices.find(esUS) ||
spanishVoices[0]`. -/
def preferredVoice (voices : List Voice) : Option Voice :=
  optOr ((spanishVoices voices).find? esUSGoogle)
    (optOr ((spanishVoices voices).find? esUSOnly) (spanishVoices voices).head?)

/-- A thrown JavaScript error as inspected by the catch block: its `name` and
`message`. -/
structure JsError where
  name : Str
  message : Str

/-- The outcome of the `fetch` transport (a host builtin, hence a model
parameter): either rejection — per the Fetch standard a `TypeError` whose
message is chosen by the browser — or an HTTP response with a status, a
status text, and the completion content `data.choices[0].message.content`. -/
inductive FetchResult where
  | netError (msg : Str)
  | response (status : Nat) (statusText : Str) (content : Str)

/-- JavaScript `Response.ok`: status in the inclusive-exclusive range [200, 300). -/
def respOk (status : Nat) : Bool := 200 ≤ status && status < 300

/-- Inline input-error message (line 48). -/
def inputErrorMsg : Str := "Please enter a Spanish word".toList

/-- Parse-error message (line 137). -/
def parseErrorMsg : Str := "Failed to parse analysis. Please try again.".toList

/-- Generic unknown-error message (line 139). -/
def genericErrorMsg : Str := "Failed to analyze the word. Please try again.".toList

/-- The marker substring tested by `err.message.includes('OpenAI API error')`
(line 134). -/
def apiErrorMarker : Str := "OpenAI API error".toList

/-- The message of the error thrown on a non-ok response (line 106):
`OpenAI API error: ${response.status} ${response.statusText}`. -/
def upstreamMessage (status : Nat) (statusText : Str) : Str :=
  apiErrorMarker ++ ": ".toList ++ (toString status).toList ++ " ".toList ++ statusText

/-- The user-facing upstream-error display (line 135):
`API Error: ${err.message}. Please check your OpenAI API key.`. -/
def apiErrorDisplay (status : Nat) (statusText : Str) : Str :=
  "API Error: ".toList ++ upstreamMessage status statusText ++
    ". Please check your OpenAI API key.".toList

/-- The catch block of lines 132-140, mapping a thrown error to the displayed
message. -/
def catchMessage (e : JsError) : Str :=
  if containsSub e.message apiErrorMarker then
    "API Error: ".toList ++ e.message ++ ". Please check your OpenAI API key.".toList
  else if e.name = "SyntaxError".toList then parseErrorMsg
  else genericErrorMsg

/-- The component state touched by `analyzeWord`: the input word, the stored
analysis, the displayed error, and the recent-searches list. -/
structure AppState where
  word : Str
  analysis : Option (List (Str × JsValue))
  errorMsg : Str
  recent : List Str

/-- The observable result of one run of `analyzeWord`: whether the HTTP
request was issued, and the state afterwards. -/
structure FlowResult where
  requestIssued : Bool
  state : AppState

/-- The `analyzeWord` flow (lines 46-144).  The input gate fires on an
empty trimmed word (lines 47-50); otherwise the error is cleared, the stored
analysis is reset, and the request runs.  A rejected fetch, a non-ok status,
and a `JSON.parse` failure each land in the catch block; on success the
normalized record is stored and the recent list updated (lines 126-130). -/
def analyzeWordFlow (st : AppState) (fetch : FetchResult)
    (parse : Str → ParseOutcome) : FlowResult :=
  if trimBoth st.word = [] then
    ⟨false, { st with errorMsg := inputErrorMsg }⟩
  else
    let st1 : AppState := { st with errorMsg := [], analysis := none }
    match fetch with
    | .netError msg =>
      ⟨true, { st1 with errorMsg := catchMessage ⟨"TypeError".toList, msg⟩ }⟩
    | .response status statusText content =>
      if respOk status then
        match parse (cleanedResponse content) with
        | .failure pmsg =>
          ⟨true, { st1 with errorMsg := catchMessage ⟨"SyntaxError".toList, pmsg⟩ }⟩
        | .ok fields =>
          ⟨true, { st1 with
                    analysis := some (safeAnalysis fields st.word),
                    recent := updateRecent st.recent st.word }⟩
      else
        ⟨true, { st1 with
                  errorMsg :=
                    catchMessage ⟨"Error".toList, upstreamMessage status statusText⟩ }⟩

/-- The render-boundary expression `(field || []).map(...)` of lines 402 and
454, applied to the `relatedEnglishWords` / `sampleSentences` field value:
`some xs` when `.map` runs on the array `xs`, `none` when the value reaching
`.map` is not an array and the render throws a `TypeError`. -/
def renderListField (v : JsValue) : Option (List JsValue) :=
  match jsOr v (.arr []) with
  | .arr xs => some xs
  | _ => none

theorem sw_len : ∀ p l : Str, startsWith p l = true → p.length ≤ l.length
  | [], _, _ => by simp
  | _ :: _, [], h => by simp [startsWith] at h
  | p :: ps, c :: cs, h => by
    simp only [startsWith, Bool.and_eq_true] at h
    simpa using sw_len ps cs h.2

theorem sw_mono : ∀ p l x : Str, startsWith p l = true → startsWith p (l ++ x) = true
  | [], _, _, _ => rfl
  | _ :: _, [], _, h => by simp [startsWith] at h
  | p :: ps, c :: cs, x, h => by
    simp only [startsWith, Bool.and_eq_true] at h ⊢
    exact ⟨h.1, sw_mono ps cs x h.2⟩

theorem sw_append_inv : ∀ p l x : Str, p.length ≤ l.length →
    startsWith p (l ++ x) = true → startsWith p l = true
  | [], _, _, _, _ => rfl
  | _ :: _, [], _, hl, _ => by simp at hl
  | p :: ps, c :: cs, x, hl, h => by
    simp only [startsWith, Bool.and_eq_true] at h ⊢
    exact ⟨h.1, sw_append_inv ps cs x (by simpa using hl) h.2⟩

theorem sw_append_short : ∀ p l x : Str, l.length < p.length →
    startsWith p (l ++ x) = true → startsWith (p.drop l.length) x = true
  | p, [], x, _, h => by simpa using h
  | [], _ :: _, _, hl, _ => by simp at hl
  | p :: ps, c :: cs, x, hl, h => by
    simp only [startsWith, Bool.and_eq_true] at h
    simpa using sw_append_short ps cs x (by simpa using hl) h.2

theorem sw_exists : ∀ p l : Str, startsWith p l = true → l = p ++ l.drop p.length
  | [], l, _ => by simp
  | _ :: _, [], h => by simp [startsWith] at h
  | p :: ps, c :: cs, h => by
    simp only [startsWith, Bool.and_eq_true, beq_iff_eq] at h
    have := sw_exists ps cs h.2
    simp only [List.length_cons, List.drop_succ_cons, List.cons_append]
    rw [h.1]
    exact congrArg (c :: ·) this

theorem sw_refl_append (p x : Str) : startsWith p (p ++ x) = true := by
  induction p with
  | nil => rfl
  | cons c cs ih => simp [startsWith, ih]

theorem dwAllWs {l : Str} (h : ∀ x ∈ l, isWs x = true) : List.dropWhile isWs l = [] :=
  List.dropWhile_eq_nil_iff.mpr h

theorem dwHead : ∀ {l : Str} {c : Char} {r : Str},
    List.dropWhile isWs l = c :: r → isWs c = false := by
  intro l
  induction l with
  | nil => intro c r h; simp at h
  | cons a t ih =>
    intro c r h
    by_cases ha : isWs a = true
    · rw [List.dropWhile_cons_of_pos ha] at h
      exact ih h
    · rw [List.dropWhile_cons_of_neg ha] at h
      cases h
      simpa using ha

theorem dwFix (l : Str) : List.dropWhile isWs (List.dropWhile isWs l) = List.dropWhile isWs l := by
  cases hd : List.dropWhile isWs l with
  | nil => rfl
  | cons c r => exact List.dropWhile_cons_of_neg (by simp [dwHead hd])

theorem lenDropWhileLe (p : Char → Bool) (l : Str) :
    (List.dropWhile p l).length ≤ l.length := by
  induction l with
  | nil => simp
  | cons c cs ih =>
    rw [List.dropWhile_cons]
    split
    · exact Nat.le_succ_of_le ih
    · simp

theorem trimR_allWs {l : Str} (h : ∀ x ∈ l, isWs x = true) : trimR l = [] := by
  unfold trimR
  rw [dwAllWs (by intro x hx; exact h x (List.mem_reverse.mp hx))]
  rfl

theorem trimR_cons_congr {x y : Str} (c : Char) (h : trimR x = trimR y) :
    trimR (c :: x) = trimR (c :: y) := by
  have hx : List.dropWhile isWs x.reverse = List.dropWhile isWs y.reverse := by
    have := congrArg List.reverse h
    simpa [trimR] using this
  unfold trimR
  simp only [List.reverse_cons, List.dropWhile_append, hx]

theorem stripAux_congr : ∀ (f₁ f₂ : Nat) (l : Str), l.length ≤ f₁ → l.length ≤ f₂ →
    stripAux f₁ l = stripAux f₂ l := by
  intro f₁
  induction f₁ with
  | zero =>
    intro f₂ l h1 _
    have : l = [] := by simpa using h1
    subst this
    cases f₂ <;> rfl
  | succ f ih =>
    intro f₂ l h1 h2
    cases l with
    | nil => cases f₂ <;> rfl
    | cons c cs =>
      cases f₂ with
      | zero => simp at h2
      | succ g =>
        have l3 : (c :: cs).length = cs.length + 1 := rfl
        simp only [stripAux]
        split_ifs with hb1 hb2
        · have l1 := lenDropWhileLe isWs (List.drop 7 (c :: cs))
          have l2 : (List.drop 7 (c :: cs)).length = (c :: cs).length - 7 :=
            List.length_drop _ _
          exact ih g _ (by omega) (by omega)
        · have l1 := lenDropWhileLe isWs (c :: cs)
          have l2 : (List.drop 3 (List.dropWhile isWs (c :: cs))).length
              = (List.dropWhile isWs (c :: cs)).length - 3 := List.length_drop _ _
          exact ih g _ (by omega) (by omega)
        · exact congrArg (c :: ·) (ih g cs (by omega) (by omega))

theorem sf_b1 {l : Str} (h : startsWith fenceJson l = true) :
    stripFences l = stripFences (List.dropWhile isWs (List.drop 7 l)) := by
  cases l with
  | nil => simp [startsWith, fenceJson] at h
  | cons c cs =>
    show stripAux ((c :: cs).length) (c :: cs) = _
    simp only [List.length_cons, stripAux]
    rw [if_pos h]
    have l1 := lenDropWhileLe isWs (List.drop 7 (c :: cs))
    have l2 : (List.drop 7 (c :: cs)).length = (c :: cs).length - 7 := List.length_drop _ _
    have l3 : (c :: cs).length = cs.length + 1 := rfl
    exact stripAux_congr _ _ _ (by omega) le_rfl

theorem sf_b2 {l : Str} (h1 : startsWith fenceJson l = false)
    (h2 : startsWith fenceTicks (List.dropWhile isWs l) = true) :
    stripFences l = stripFences (List.drop 3 (List.dropWhile isWs l)) := by
  cases l with
  | nil => simp [startsWith, fenceTicks] at h2
  | cons c cs =>
    show stripAux ((c :: cs).length) (c :: cs) = _
    simp only [List.length_cons, stripAux]
    rw [if_neg (by simp [h1]), if_pos h2]
    have l1 := lenDropWhileLe isWs (c :: cs)
    have l2 : (List.drop 3 (List.dropWhile isWs (c :: cs))).length
        = (List.dropWhile isWs (c :: cs)).length - 3 := List.length_drop _ _
    have l3 : (c :: cs).length = cs.length + 1 := rfl
    exact stripAux_congr _ _ _ (by omega) le_rfl

theorem sf_b3 (c : Char) (cs : Str) (h1 : startsWith fenceJson (c :: cs) = false)
    (h2 : startsWith fenceTicks (List.dropWhile isWs (c :: cs)) = false) :
    stripFences (c :: cs) = c :: stripFences cs := by
  show stripAux ((c :: cs).length) (c :: cs) = _
  simp only [List.length_cons, stripAux]
  rw [if_neg (by simp [h1]), if_neg (by simp [h2])]
  rfl

theorem bt_not_ws : isWs '\x60' = false := by decide

theorem sw_fj_false {c : Char} {cs : Str} (h : ('\x60' == c) = false) :
    startsWith fenceJson (c :: cs) = false := by
  simp only [fenceJson, startsWith, h, Bool.false_and]

theorem sw_tk_false {c : Char} {cs : Str} (h : ('\x60' == c) = false) :
    startsWith fenceTicks (c :: cs) = false := by
  simp only [fenceTicks, startsWith, h, Bool.false_and]

theorem ws_ne_bt {c : Char} (h : isWs c = true) : ('\x60' == c) = false := by
  cases hx : ('\x60' == c)
  · rfl
  · exfalso
    have : c = '\x60' := by
      have := (beq_iff_eq).mp hx
      exact this.symm
    rw [this] at h
    exact absurd h (by decide)

theorem sf_keep_head (c : Char) (cs : Str) (hws : isWs c = false)
    (hbt : (c == '\x60') = false) : stripFences (c :: cs) = c :: stripFences cs := by
  have hbt' : ('\x60' == c) = false := by
    cases hx : ('\x60' == c)
    · rfl
    · exfalso
      have : ('\x60' : Char) = c := (beq_iff_eq).mp hx
      rw [← this] at hbt
      simp at hbt
  apply sf_b3
  · exact sw_fj_false hbt'
  · rw [List.dropWhile_cons_of_neg (by simp [hws])]
    exact sw_tk_false hbt'

theorem sf_allWs : ∀ {l : Str}, (∀ x ∈ l, isWs x = true) → stripFences l = l := by
  intro l
  induction l with
  | nil => intro _; rfl
  | cons c cs ih =>
    intro h
    have hc : isWs c = true := h c (by simp)
    have hrec : stripFences (c :: cs) = c :: stripFences cs := by
      apply sf_b3
      · exact sw_fj_false (ws_ne_bt hc)
      · rw [List.dropWhile_cons_of_pos hc,
          dwAllWs (by intro x hx; exact h x (by simp [hx]))]
        rfl
    rw [hrec, ih (by intro x hx; exact h x (by simp [hx]))]

theorem sf_wsRun : ∀ (w t : Str), (∀ x ∈ w, isWs x = true) →
    List.dropWhile isWs t = t → startsWith fenceTicks t = false →
    stripFences (w ++ t) = w ++ stripFences t := by
  intro w
  induction w with
  | nil => intro t _ _ _; rfl
  | cons c w' ih =>
    intro t hws hdw htk
    have hc : isWs c = true := hws c (by simp)
    have hw' : ∀ x ∈ w', isWs x = true := by intro x hx; exact hws x (by simp [hx])
    have hstep : stripFences (c :: (w' ++ t)) = c :: stripFences (w' ++ t) := by
      apply sf_b3
      · exact sw_fj_false (ws_ne_bt hc)
      · rw [List.dropWhile_cons_of_pos hc, List.dropWhile_append_of_pos hw', hdw]
        exact htk
    rw [List.cons_append, hstep, ih t hw' hdw htk]
    rfl

theorem fjTransfer (u : Str) (h : startsWith fenceJson (u ++ closeFence) = true) :
    startsWith fenceJson u = true := by
  by_cases h7 : fenceJson.length ≤ u.length
  · exact sw_append_inv _ _ _ h7 h
  · exfalso
    have hlt : u.length < 7 := by
      have : fenceJson.length = 7 := rfl
      omega
    have hs := sw_append_short fenceJson u closeFence (by rw [show fenceJson.length = 7 from rfl]; omega) h
    have hcase : u.length = 0 ∨ u.length = 1 ∨ u.length = 2 ∨ u.length = 3 ∨
        u.length = 4 ∨ u.length = 5 ∨ u.length = 6 := by omega
    rcases hcase with h0 | h0 | h0 | h0 | h0 | h0 | h0 <;>
      (rw [h0] at hs; exact absurd hs (by decide))

theorem tkTransfer (u : Str) (h : startsWith fenceTicks (u ++ closeFence) = true) :
    startsWith fenceTicks u = true := by
  by_cases h3 : fenceTicks.length ≤ u.length
  · exact sw_append_inv _ _ _ h3 h
  · exfalso
    have hlt : u.length < 3 := by
      have : fenceTicks.length = 3 := rfl
      omega
    have hs := sw_append_short fenceTicks u closeFence (by rw [show fenceTicks.length = 3 from rfl]; omega) h
    have hcase : u.length = 0 ∨ u.length = 1 ∨ u.length = 2 := by omega
    rcases hcase with h0 | h0 | h0 <;>
      (rw [h0] at hs; exact absurd hs (by decide))

theorem trimStripClose : ∀ (n : Nat) (u : Str), u.length ≤ n →
    trimR (stripFences (u ++ closeFence)) = trimR (stripFences u) := by
  intro n
  induction n with
  | zero =>
    intro u hu
    have : u = [] := by simpa using hu
    subst this
    decide
  | succ n ih =>
    intro u hu
    cases u with
    | nil => decide
    | cons c cs =>
      by_cases hb1 : startsWith fenceJson (c :: cs) = true
      · have hb1c : startsWith fenceJson ((c :: cs) ++ closeFence) = true :=
          sw_mono _ _ _ hb1
        rw [sf_b1 hb1c, sf_b1 hb1]
        have hsplit : (c :: cs) = fenceJson ++ List.drop 7 (c :: cs) := by
          have := sw_exists _ _ hb1
          simpa [show fenceJson.length = 7 from rfl] using this
        have hdrop1 : List.drop 7 ((c :: cs) ++ closeFence)
            = List.drop 7 (c :: cs) ++ closeFence := by
          conv_lhs => rw [hsplit]
          rw [List.append_assoc]
          exact List.drop_left' rfl
        rw [hdrop1]
        cases hr2 : List.dropWhile isWs (List.drop 7 (c :: cs)) with
        | nil =>
          rw [List.dropWhile_append, hr2]
          simp only [List.isEmpty_nil, if_true]
          decide
        | cons a r' =>
          have hdwa : List.dropWhile isWs (List.drop 7 (c :: cs) ++ closeFence)
              = List.dropWhile isWs (List.drop 7 (c :: cs)) ++ closeFence := by
            rw [List.dropWhile_append, hr2]
            rfl
          rw [hdwa, hr2]
          apply ih
          rw [← hr2]
          have l1 := lenDropWhileLe isWs (List.drop 7 (c :: cs))
          have l2 : (List.drop 7 (c :: cs)).length = (c :: cs).length - 7 :=
            List.length_drop _ _
          have l3 : (c :: cs).length = cs.length + 1 := rfl
          omega
      · have hb1f : startsWith fenceJson (c :: cs) = false := by
          cases hx : startsWith fenceJson (c :: cs)
          · rfl
          · exact absurd hx hb1
        have hb1c : startsWith fenceJson ((c :: cs) ++ closeFence) = false := by
          cases hx : startsWith fenceJson ((c :: cs) ++ closeFence)
          · rfl
          · exact absurd (fjTransfer _ hx) hb1
        by_cases hb2 : startsWith fenceTicks (List.dropWhile isWs (c :: cs)) = true
        · have hlen3 : 3 ≤ (List.dropWhile isWs (c :: cs)).length := by
            have := sw_len _ _ hb2
            simpa [show fenceTicks.length = 3 from rfl] using this
          have hne : (List.dropWhile isWs (c :: cs)).isEmpty = false := by
            cases hdd : List.dropWhile isWs (c :: cs) with
            | nil => rw [hdd] at hlen3; simp at hlen3
            | cons _ _ => rfl
          have hdwa : List.dropWhile isWs ((c :: cs) ++ closeFence)
              = List.dropWhile isWs (c :: cs) ++ closeFence := by
            rw [List.dropWhile_append, hne]
            rfl
          have hb2c : startsWith fenceTicks (List.dropWhile isWs ((c :: cs) ++ closeFence)) = true := by
            rw [hdwa]
            exact sw_mono _ _ _ hb2
          rw [sf_b2 hb1c hb2c, sf_b2 hb1f hb2, hdwa,
            List.drop_append_of_le_length hlen3]
          apply ih
          have l1 := lenDropWhileLe isWs (c :: cs)
          have l2 : (List.drop 3 (List.dropWhile isWs (c :: cs))).length
              = (List.dropWhile isWs (c :: cs)).length - 3 := List.length_drop _ _
          have l3 : (c :: cs).length = cs.length + 1 := rfl
          omega
        · have hb2f : startsWith fenceTicks (List.dropWhile isWs (c :: cs)) = false := by
            cases hx : startsWith fenceTicks (List.dropWhile isWs (c :: cs))
            · rfl
            · exact absurd hx hb2
          cases hr : List.dropWhile isWs (c :: cs) with
          | nil =>
            have hall : ∀ x ∈ (c :: cs), isWs x = true := List.dropWhile_eq_nil_iff.mp hr
            rw [sf_allWs hall, trimR_allWs hall]
            have hdw : List.dropWhile isWs ((c :: cs) ++ closeFence)
                = List.dropWhile isWs closeFence := by
              rw [List.dropWhile_append, hr]
              rfl
            have hb2c : startsWith fenceTicks (List.dropWhile isWs ((c :: cs) ++ closeFence)) = true := by
              rw [hdw]
              decide
            rw [sf_b2 hb1c hb2c, hdw]
            decide
          | cons a r' =>
            have hne : (List.dropWhile isWs (c :: cs)).isEmpty = false := by
              rw [hr]
              rfl
            have hdwa : List.dropWhile isWs ((c :: cs) ++ closeFence)
                = List.dropWhile isWs (c :: cs) ++ closeFence := by
              rw [List.dropWhile_append, hne]
              rfl
            have hb2c : startsWith fenceTicks (List.dropWhile isWs ((c :: cs) ++ closeFence)) = false := by
              rw [hdwa]
              cases hx : startsWith fenceTicks (List.dropWhile isWs (c :: cs) ++ closeFence)
              · rfl
              · exact absurd (tkTransfer _ hx) hb2
            have lhs3 : stripFences ((c :: cs) ++ closeFence)
                = c :: stripFences (cs ++ closeFence) :=
              sf_b3 c (cs ++ closeFence) hb1c hb2c
            rw [lhs3, sf_b3 c cs hb1f hb2f]
            have l3 : (c :: cs).length = cs.length + 1 := rfl
            exact trimR_cons_congr c (ih cs (by omega))

theorem sw_fj_plain (y : Str) :
    startsWith fenceJson ('\x60' :: '\x60' :: '\x60' :: '\n' :: y) = false := by
  simp [startsWith, fenceJson, show (('j' : Char) == '\n') = false from rfl]

/-- C3: for every completion text that is a JSON payload (an object, so its
first non-whitespace character is `{`) wrapped in a markdown code fence with
an optional `json` language tag, the cleanup of line 113 yields the same text
as for the unwrapped payload, and hence the normalizer yields the same
Analysis record. -/
theorem c3_fence_equiv (s : Str) (h : (List.dropWhile isWs s).head? = some '\x7b') :
    cleanedResponse (wrapJson s) = cleanedResponse s ∧
    cleanedResponse (wrapPlain s) = cleanedResponse s ∧
    ∀ (parse : Str → ParseOutcome) (w : Str),
      normalizeResponse parse (wrapJson s) w = normalizeResponse parse s w ∧
      normalizeResponse parse (wrapPlain s) w = normalizeResponse parse s w := by
  obtain ⟨t', ht⟩ : ∃ t', List.dropWhile isWs s = '\x7b' :: t' := by
    cases hd : List.dropWhile isWs s with
    | nil => rw [hd] at h; simp at h
    | cons a r =>
      rw [hd] at h
      simp only [List.head?_cons, Option.some.injEq] at h
      exact ⟨r, by rw [h]⟩
  have hws_tw : ∀ x ∈ List.takeWhile isWs s, isWs x = true := fun _ hx =>
    List.mem_takeWhile_imp hx
  have htk : startsWith fenceTicks (List.dropWhile isWs s) = false := by
    rw [ht]
    exact sw_tk_false (by decide)
  have h1 : stripFences s = List.takeWhile isWs s ++ ('\x7b' :: stripFences t') := by
    conv_lhs => rw [← List.takeWhile_append_dropWhile isWs s]
    rw [sf_wsRun _ _ hws_tw (dwFix s) htk, ht,
      sf_keep_head '\x7b' t' (by decide) (by decide)]
  have hclean_s : cleanedResponse s = trimR ('\x7b' :: stripFences t') := by
    unfold cleanedResponse trimBoth
    rw [h1, List.dropWhile_append_of_pos hws_tw,
      List.dropWhile_cons_of_neg (by decide)]
  have hkey : trimR ('\x7b' :: stripFences (t' ++ closeFence))
      = trimR ('\x7b' :: stripFences t') :=
    trimR_cons_congr _ (trimStripClose t'.length t' le_rfl)
  have h3 : stripFences (wrapJson s) = '\x7b' :: stripFences (t' ++ closeFence) := by
    rw [show wrapJson s = fenceJson ++ ('\n' :: (s ++ closeFence)) from rfl,
      sf_b1 (sw_refl_append _ _),
      List.drop_left' (show List.length fenceJson = 7 from rfl),
      List.dropWhile_cons_of_pos (by decide)]
    conv_lhs => rw [← List.takeWhile_append_dropWhile isWs s]
    rw [List.append_assoc, List.dropWhile_append_of_pos hws_tw, ht,
      List.cons_append '\x7b' t' closeFence, List.dropWhile_cons_of_neg (by decide)]
    exact sf_keep_head '\x7b' _ (by decide) (by decide)
  have hclean_json : cleanedResponse (wrapJson s)
      = trimR ('\x7b' :: stripFences (t' ++ closeFence)) := by
    unfold cleanedResponse trimBoth
    rw [h3, List.dropWhile_cons_of_neg (by decide)]
  have hws_nl : ∀ x ∈ '\n' :: List.takeWhile isWs s, isWs x = true := by
    intro x hx
    rcases List.mem_cons.mp hx with hx | hx
    · rw [hx]; decide
    · exact hws_tw x hx
  have hdw' : List.dropWhile isWs (List.dropWhile isWs s ++ closeFence)
      = List.dropWhile isWs s ++ closeFence := by
    rw [ht, List.cons_append, List.dropWhile_cons_of_neg (by decide)]
  have htk' : startsWith fenceTicks (List.dropWhile isWs s ++ closeFence) = false := by
    rw [ht, List.cons_append]
    exact sw_tk_false (by decide)
  have h4 : stripFences (wrapPlain s)
      = ('\n' :: List.takeWhile isWs s) ++ ('\x7b' :: stripFences (t' ++ closeFence)) := by
    have hfj : startsWith fenceJson (wrapPlain s) = false := sw_fj_plain _
    have hdwp : List.dropWhile isWs (wrapPlain s) = wrapPlain s := by
      rw [show wrapPlain s = '\x60' :: ('\x60' :: '\x60' :: '\n' :: (s ++ closeFence)) from rfl,
        List.dropWhile_cons_of_neg (by decide)]
    have htkp : startsWith fenceTicks (List.dropWhile isWs (wrapPlain s)) = true := by
      rw [hdwp, show wrapPlain s = fenceTicks ++ ('\n' :: (s ++ closeFence)) from rfl]
      exact sw_refl_append _ _
    rw [sf_b2 hfj htkp, hdwp,
      show wrapPlain s = fenceTicks ++ ('\n' :: (s ++ closeFence)) from rfl,
      List.drop_left' (show List.length fenceTicks = 3 from rfl)]
    have hshape : '\n' :: (s ++ closeFence)
        = ('\n' :: List.takeWhile isWs s) ++ (List.dropWhile isWs s ++ closeFence) := by
      rw [List.cons_append, ← List.append_assoc, List.takeWhile_append_dropWhile]
    rw [hshape, sf_wsRun _ _ hws_nl hdw' htk', ht,
      List.cons_append '\x7b' t' closeFence,
      sf_keep_head '\x7b' (t' ++ closeFence) (by decide) (by decide)]
  have hclean_plain : cleanedResponse (wrapPlain s)
      = trimR ('\x7b' :: stripFences (t' ++ closeFence)) := by
    unfold cleanedResponse trimBoth
    rw [h4, List.dropWhile_append_of_pos hws_nl,
      List.dropWhile_cons_of_neg (by decide)]
  have g1 : cleanedResponse (wrapJson s) = cleanedResponse s := by
    rw [hclean_json, hclean_s, hkey]
  have g2 : cleanedResponse (wrapPlain s) = cleanedResponse s := by
    rw [hclean_plain, hclean_s, hkey]
  exact ⟨g1, g2, fun parse w => ⟨by unfold normalizeResponse; rw [g1],
    by unfold normalizeResponse; rw [g2]⟩⟩

/-- Witness for C3 at the concrete payload `{}`. -/
theorem c3_fence_equiv_witness :
    (List.dropWhile isWs ['\x7b', '\x7d']).head? = some '\x7b' ∧
    cleanedResponse (wrapJson ['\x7b', '\x7d']) = cleanedResponse ['\x7b', '\x7d'] :=
  ⟨by decide, (c3_fence_equiv ['\x7b', '\x7d'] (by decide)).1⟩

theorem jsGet_cons_eq (k : Str) (v : JsValue) (rest : List (Str × JsValue)) :
    jsGet ((k, v) :: rest) k = v := by
  simp [jsGet]

theorem jsGet_cons_ne {k key : Str} (h : (k == key) = false) (v : JsValue)
    (rest : List (Str × JsValue)) : jsGet ((k, v) :: rest) key = jsGet rest key := by
  simp [jsGet, h]

theorem safeAnalysis_fields (p : List (Str × JsValue)) (w : Str) :
    jsGet (safeAnalysis p w) relKey = jsOr (jsGet p relKey) (.arr []) ∧
    jsGet (safeAnalysis p w) sampKey = jsOr (jsGet p sampKey) (.arr []) ∧
    jsGet (safeAnalysis p w) confKey = jsOr (jsGet p confKey) (.str "medium".toList) ∧
    jsGet (safeAnalysis p w) famKey = jsOr (jsGet p famKey) (.str "Romance".toList) ∧
    jsGet (safeAnalysis p w) pronKey = jsOr (jsGet p pronKey) (.str (trimBoth w)) := by
  unfold safeAnalysis
  refine ⟨?_, ?_, ?_, ?_, ?_⟩
  · rw [jsGet_cons_eq]
  · rw [jsGet_cons_ne (by decide), jsGet_cons_eq]
  · rw [jsGet_cons_ne (by decide), jsGet_cons_ne (by decide), jsGet_cons_eq]
  · rw [jsGet_cons_ne (by decide), jsGet_cons_ne (by decide),
      jsGet_cons_ne (by decide), jsGet_cons_eq]
  · rw [jsGet_cons_ne (by decide), jsGet_cons_ne (by decide),
      jsGet_cons_ne (by decide), jsGet_cons_ne (by decide), jsGet_cons_eq]

theorem jsOr_ne_undef_null {v d : JsValue} (hd1 : d ≠ .undef) (hd2 : d ≠ .null) :
    jsOr v d ≠ .undef ∧ jsOr v d ≠ .null := by
  unfold jsOr
  by_cases h : truthy v = true
  · rw [if_pos h]
    constructor <;> intro he <;> rw [he] at h <;> simp [truthy] at h
  · rw [if_neg h]
    exact ⟨hd1, hd2⟩

theorem beq_false_symm {a b : Str} (h : (a == b) = false) : (b == a) = false := by
  rw [beq_eq_false_iff_ne] at h ⊢
  exact fun he => h he.symm

/-- C1 counterexample: a payload whose `confidence` is the unrecognized
non-empty string "certain" keeps that value after normalization instead of
being defaulted to "medium". -/
theorem c1_counterexample :
    jsGet (safeAnalysis [(confKey, .str "certain".toList)] "casa".toList) confKey
      = .str "certain".toList ∧
    ("certain".toList : Str) ≠ "medium".toList :=
  ⟨rfl, by decide⟩

/-- C1 (amended): for fields absent from the payload, the normalizer fills
the documented defaults: `relatedEnglishWords` and `sampleSentences` become
empty arrays, `confidence` becomes "medium", `languageFamily` becomes
"Romance", and `pronunciation` becomes the trimmed input word.  (An
unrecognized but non-empty `confidence` value is passed through, see the
counterexample.) -/
theorem c1_defaults (p : List (Str × JsValue)) (w : Str)
    (h1 : jsGet p relKey = .undef) (h2 : jsGet p sampKey = .undef)
    (h3 : jsGet p confKey = .undef) (h4 : jsGet p famKey = .undef)
    (h5 : jsGet p pronKey = .undef) :
    jsGet (safeAnalysis p w) relKey = .arr [] ∧
    jsGet (safeAnalysis p w) sampKey = .arr [] ∧
    jsGet (safeAnalysis p w) confKey = .str "medium".toList ∧
    jsGet (safeAnalysis p w) famKey = .str "Romance".toList ∧
    jsGet (safeAnalysis p w) pronKey = .str (trimBoth w) := by
  obtain ⟨f1, f2, f3, f4, f5⟩ := safeAnalysis_fields p w
  rw [f1, h1, f2, h2, f3, h3, f4, h4, f5, h5]
  exact ⟨rfl, rfl, rfl, rfl, rfl⟩

/-- Witness for C1 at the empty payload and the word "casa". -/
theorem c1_defaults_witness :
    jsGet ([] : List (Str × JsValue)) relKey = JsValue.undef ∧
    jsGet (safeAnalysis [] "casa".toList) confKey = .str "medium".toList :=
  ⟨rfl, (c1_defaults [] "casa".toList rfl rfl rfl rfl rfl).2.2.1⟩

/-- C2 counterexample: the empty object is a parseable payload, yet after
normalization its `word` field reads as `undefined` — the required fields
are passed through unvalidated, so they are not guaranteed present. -/
theorem c2_counterexample :
    jsGet (safeAnalysis [] "casa".toList) wordKey = JsValue.undef := rfl

/-- C2 (amended): after normalization the five defaulted fields
(`relatedEnglishWords`, `sampleSentences`, `confidence`, `languageFamily`,
`pronunciation`) are present and non-null for every parseable object
payload; every other field — in particular the required `word`,
`englishMeaning`, `etymology`, `mnemonic` — is passed through exactly as in
the payload, and is absent when the payload omits it. -/
theorem c2_invariant (p : List (Str × JsValue)) (w : Str) :
    (jsGet (safeAnalysis p w) relKey ≠ .undef ∧ jsGet (safeAnalysis p w) relKey ≠ .null) ∧
    (jsGet (safeAnalysis p w) sampKey ≠ .undef ∧ jsGet (safeAnalysis p w) sampKey ≠ .null) ∧
    (jsGet (safeAnalysis p w) confKey ≠ .undef ∧ jsGet (safeAnalysis p w) confKey ≠ .null) ∧
    (jsGet (safeAnalysis p w) famKey ≠ .undef ∧ jsGet (safeAnalysis p w) famKey ≠ .null) ∧
    (jsGet (safeAnalysis p w) pronKey ≠ .undef ∧ jsGet (safeAnalysis p w) pronKey ≠ .null) ∧
    (∀ k, (k == relKey) = false → (k == sampKey) = false → (k == confKey) = false →
      (k == famKey) = false → (k == pronKey) = false →
      jsGet (safeAnalysis p w) k = jsGet p k) := by
  obtain ⟨f1, f2, f3, f4, f5⟩ := safeAnalysis_fields p w
  refine ⟨?_, ?_, ?_, ?_, ?_, ?_⟩
  · rw [f1]; exact jsOr_ne_undef_null (by simp) (by simp)
  · rw [f2]; exact jsOr_ne_undef_null (by simp) (by simp)
  · rw [f3]; exact jsOr_ne_undef_null (by simp) (by simp)
  · rw [f4]; exact jsOr_ne_undef_null (by simp) (by simp)
  · rw [f5]; exact jsOr_ne_undef_null (by simp) (by simp)
  · intro k g1 g2 g3 g4 g5
    unfold safeAnalysis
    rw [jsGet_cons_ne (beq_false_symm g1), jsGet_cons_ne (beq_false_symm g2),
      jsGet_cons_ne (beq_false_symm g3), jsGet_cons_ne (beq_false_symm g4),
      jsGet_cons_ne (beq_false_symm g5)]

/-- Witness for C2: a `word` field present in the payload passes through. -/
theorem c2_invariant_witness :
    jsGet (safeAnalysis [(wordKey, JsValue.str "hola".toList)] "casa".toList) wordKey
      = jsGet [(wordKey, JsValue.str "hola".toList)] wordKey :=
  (c2_invariant [(wordKey, JsValue.str "hola".toList)] "casa".toList).2.2.2.2.2
    wordKey (by decide) (by decide) (by decide) (by decide) (by decide)

theorem filter_eq_removeAll (x : Str) : ∀ l : List Str,
    l.filter (fun s => !(s == x)) = removeAll l x := by
  intro l
  induction l with
  | nil => rfl
  | cons s r ih =>
    by_cases h : s = x
    · subst h
      simp [removeAll, List.filter_cons, ih]
    · simp [removeAll, List.filter_cons, h, ih]

/-- C4: the recent-searches update removes every occurrence of the exact
searched string, inserts it at the front, and truncates to five entries; the
result never exceeds five entries and stays duplicate-free; and from an
empty list, searching "ventana", then "casa", then "ventana" again yields
["ventana", "casa"]. -/
theorem c4_recent_update (recent : List Str) (w : Str) (_h5 : recent.length ≤ 5)
    (hnd : recent.Nodup) :
    updateRecent recent w = (trimBoth w :: removeAll recent (trimBoth w)).take 5 ∧
    (updateRecent recent w).length ≤ 5 ∧
    (updateRecent recent w).Nodup ∧
    updateRecent (updateRecent (updateRecent [] "ventana".toList) "casa".toList)
        "ventana".toList = ["ventana".toList, "casa".toList] := by
  refine ⟨?_, ?_, ?_, by decide⟩
  · unfold updateRecent
    rw [filter_eq_removeAll]
  · exact List.length_take_le _ _
  · unfold updateRecent
    apply List.Nodup.sublist (List.take_sublist _ _)
    rw [List.nodup_cons]
    constructor
    · intro hmem
      have := List.of_mem_filter hmem
      simp at this
    · exact List.Nodup.filter _ hnd

/-- Witness for C4 at a concrete one-element list. -/
theorem c4_recent_update_witness :
    (["casa".toList] : List Str).length ≤ 5 ∧
    updateRecent ["casa".toList] "ventana".toList
      = (trimBoth "ventana".toList ::
          removeAll ["casa".toList] (trimBoth "ventana".toList)).take 5 :=
  ⟨by decide,
    (c4_recent_update ["casa".toList] "ventana".toList (by decide) (by decide)).1⟩

/-- C10: the recent-searches list starts non-empty, preloaded with the three
terms "biblioteca", "ventana", "corazón"; the first searches dedupe and
truncate against these preset entries (searching "ventana" moves the preset
entry to the front; three fresh searches push "corazón" out at five). -/
theorem c10_initial_recent :
    recentSearchesInit
      = ["biblioteca".toList, "ventana".toList, "corazón".toList] ∧
    recentSearchesInit ≠ [] ∧
    updateRecent recentSearchesInit "ventana".toList
      = ["ventana".toList, "biblioteca".toList, "corazón".toList] ∧
    updateRecent (updateRecent (updateRecent recentSearchesInit "casa".toList)
        "perro".toList) "gato".toList
      = ["gato".toList, "perro".toList, "casa".toList, "biblioteca".toList,
         "ventana".toList] :=
  ⟨rfl, by decide, by decide, by decide⟩

/-- C5: the registry filters the catalog to voices whose language tag begins
with "es" or whose name contains "spanish" case-insensitively, and selects,
in priority order: an "es-US" voice whose name contains "google"
(case-insensitive); else any "es-US" voice; else the first filtered voice;
else none when the filtered set is empty.  The three concrete scenarios of
the specification are included. -/
theorem c5_voice_selection (voices : List Voice) :
    (∀ v, v ∈ spanishVoices voices ↔ v ∈ voices ∧ voiceMatch v = true) ∧
    (∀ v, preferredVoice voices = some v → v ∈ spanishVoices voices) ∧
    ((∃ v ∈ spanishVoices voices, esUSGoogle v = true) →
      ∃ v, preferredVoice voices = some v ∧ esUSGoogle v = true) ∧
    ((∀ v ∈ spanishVoices voices, esUSGoogle v = false) →
      (∃ v ∈ spanishVoices voices, esUSOnly v = true) →
      ∃ v, preferredVoice voices = some v ∧ esUSOnly v = true) ∧
    ((∀ v ∈ spanishVoices voices, esUSGoogle v = false) →
      (∀ v ∈ spanishVoices voices, esUSOnly v = false) →
      preferredVoice voices = (spanishVoices voices).head?) ∧
    (preferredVoice voices = none ↔ spanishVoices voices = []) ∧
    (preferredVoice [⟨"es-US".toList, "Google español".toList⟩,
        ⟨"es-ES".toList, "Monica".toList⟩]
      = some ⟨"es-US".toList, "Google español".toList⟩ ∧
      preferredVoice [⟨"es-ES".toList, "Monica".toList⟩]
        = some ⟨"es-ES".toList, "Monica".toList⟩ ∧
      preferredVoice [⟨"en-US".toList, "Alex".toList⟩] = none) := by
  refine ⟨?_, ?_, ?_, ?_, ?_, ?_, by decide, by decide, by decide⟩
  · intro v
    simp [spanishVoices, List.mem_filter]
  · intro v hv
    unfold preferredVoice at hv
    cases hf1 : (spanishVoices voices).find? esUSGoogle with
    | some u =>
      rw [hf1] at hv
      simp only [optOr, Option.some.injEq] at hv
      rw [← hv]
      exact List.mem_of_find?_eq_some hf1
    | none =>
      rw [hf1] at hv
      cases hf2 : (spanishVoices voices).find? esUSOnly with
      | some u =>
        rw [hf2] at hv
        simp only [optOr, Option.some.injEq] at hv
        rw [← hv]
        exact List.mem_of_find?_eq_some hf2
      | none =>
        rw [hf2] at hv
        simp only [optOr] at hv
        cases hsv : spanishVoices voices with
        | nil => rw [hsv] at hv; simp at hv
        | cons a l =>
          rw [hsv] at hv
          simp only [List.head?_cons, Option.some.injEq] at hv
          rw [← hv]
          exact List.mem_cons_self a l
  · rintro ⟨u, hu_mem, hu_p⟩
    cases hf1 : (spanishVoices voices).find? esUSGoogle with
    | none =>
      exfalso
      have := List.find?_eq_none.mp hf1 u hu_mem
      simp [hu_p] at this
    | some x =>
      exact ⟨x, by simp [preferredVoice, hf1, optOr], List.find?_some hf1⟩
  · intro hno
    rintro ⟨u, hu_mem, hu_p⟩
    have hf1 : (spanishVoices voices).find? esUSGoogle = none :=
      List.find?_eq_none.mpr (fun x hx => by simp [hno x hx])
    cases hf2 : (spanishVoices voices).find? esUSOnly with
    | none =>
      exfalso
      have := List.find?_eq_none.mp hf2 u hu_mem
      simp [hu_p] at this
    | some x =>
      exact ⟨x, by simp [preferredVoice, hf1, hf2, optOr], List.find?_some hf2⟩
  · intro hno1 hno2
    have hf1 : (spanishVoices voices).find? esUSGoogle = none :=
      List.find?_eq_none.mpr (fun x hx => by simp [hno1 x hx])
    have hf2 : (spanishVoices voices).find? esUSOnly = none :=
      List.find?_eq_none.mpr (fun x hx => by simp [hno2 x hx])
    simp [preferredVoice, hf1, hf2, optOr]
  · constructor
    · intro h
      cases hf1 : (spanishVoices voices).find? esUSGoogle with
      | some u => simp [preferredVoice, hf1, optOr] at h
      | none =>
        cases hf2 : (spanishVoices voices).find? esUSOnly with
        | some u => simp [preferredVoice, hf1, hf2, optOr] at h
        | none =>
          simpa [preferredVoice, hf1, hf2, optOr] using h
    · intro h
      simp [preferredVoice, h, optOr]

/-- Witness for C5: the first-priority clause applied to the catalog with the
"es-US" Google voice. -/
theorem c5_voice_selection_witness :
    ∃ v, preferredVoice [⟨"es-US".toList, "Google español".toList⟩,
        ⟨"es-ES".toList, "Monica".toList⟩] = some v ∧ esUSGoogle v = true :=
  (c5_voice_selection [⟨"es-US".toList, "Google español".toList⟩,
      ⟨"es-ES".toList, "Monica".toList⟩]).2.2.1
    ⟨⟨"es-US".toList, "Google español".toList⟩, by decide, by decide⟩

/-- C6: an empty or whitespace-only search term issues no request and shows
the inline input error, leaving the stored analysis and recent list
untouched; a non-empty trimmed term always issues the request. -/
theorem c6_input_gate (st : AppState) (fetch : FetchResult)
    (parse : Str → ParseOutcome) :
    (trimBoth st.word = [] →
      (analyzeWordFlow st fetch parse).requestIssued = false ∧
      (analyzeWordFlow st fetch parse).state.errorMsg = inputErrorMsg ∧
      (analyzeWordFlow st fetch parse).state.recent = st.recent ∧
      (analyzeWordFlow st fetch parse).state.analysis = st.analysis) ∧
    (trimBoth st.word ≠ [] → (analyzeWordFlow st fetch parse).requestIssued = true) := by
  constructor
  · intro h
    refine ⟨?_, ?_, ?_, ?_⟩ <;> simp [analyzeWordFlow, h]
  · intro h
    cases fetch with
    | netError msg => simp [analyzeWordFlow, h]
    | response status statusText content =>
      by_cases hok : respOk status = true
      · cases hp : parse (cleanedResponse content) <;>
          simp [analyzeWordFlow, h, hok, hp]
      · simp [analyzeWordFlow, h, hok]

/-- Witness for C6 at a whitespace-only input. -/
theorem c6_input_gate_witness :
    trimBoth "   ".toList = [] ∧
    (analyzeWordFlow ⟨"   ".toList, none, [], []⟩
        (.netError "Failed to fetch".toList) (fun _ => .failure [])).requestIssued
      = false :=
  ⟨by decide,
    ((c6_input_gate ⟨"   ".toList, none, [], []⟩
        (.netError "Failed to fetch".toList) (fun _ => .failure [])).1 (by decide)).1⟩

theorem containsSub_of_sw {hay pat : Str} (h : startsWith pat hay = true) :
    containsSub hay pat = true := by
  cases hay with
  | nil => simpa [containsSub] using h
  | cons c t => simp [containsSub, h]

theorem containsSub_mono (pre : Str) {hay pat : Str} (h : containsSub hay pat = true) :
    containsSub (pre ++ hay) pat = true := by
  induction pre with
  | nil => simpa using h
  | cons c pre' ih =>
    rw [List.cons_append]
    simp only [containsSub, Bool.or_eq_true]
    exact Or.inr ih

/-- C7 counterexample: a rejected fetch (network failure) is reported with
the generic unknown-error message, which carries no status code or text and
does not contain the upstream-error marker at all. -/
theorem c7_counterexample :
    (analyzeWordFlow ⟨"casa".toList, none, [], []⟩
        (.netError "Failed to fetch".toList) (fun _ => .failure [])).state.errorMsg
      = genericErrorMsg ∧
    containsSub genericErrorMsg apiErrorMarker = false :=
  ⟨by decide, by decide⟩

/-- C7 (amended): a non-success HTTP status produces the upstream request
error display carrying the status code and status text, and containing the
upstream marker; a parse failure produces the parse-error message; a network
failure produces the generic unknown-error message; and the three messages
are pairwise distinct, so each failure kind is distinguishable at the call
site. -/
theorem c7_error_taxonomy (st : AppState) (parse : Str → ParseOutcome)
    (status : Nat) (statusText content msg pmsg : Str)
    (hw : trimBoth st.word ≠ []) :
    (respOk status = false →
      (analyzeWordFlow st (.response status statusText content) parse).state.errorMsg
        = apiErrorDisplay status statusText) ∧
    containsSub (apiErrorDisplay status statusText) apiErrorMarker = true ∧
    (respOk status = true → parse (cleanedResponse content) = .failure pmsg →
      containsSub pmsg apiErrorMarker = false →
      (analyzeWordFlow st (.response status statusText content) parse).state.errorMsg
        = parseErrorMsg) ∧
    (containsSub msg apiErrorMarker = false →
      (analyzeWordFlow st (.netError msg) parse).state.errorMsg = genericErrorMsg) ∧
    apiErrorDisplay status statusText ≠ parseErrorMsg ∧
    apiErrorDisplay status statusText ≠ genericErrorMsg ∧
    parseErrorMsg ≠ genericErrorMsg := by
  have hsub : containsSub (upstreamMessage status statusText) apiErrorMarker = true := by
    have hshape : upstreamMessage status statusText
        = apiErrorMarker ++ (": ".toList ++ ((toString status).toList
            ++ (" ".toList ++ statusText))) := by
      simp [upstreamMessage]
    rw [hshape]
    exact containsSub_of_sw (sw_refl_append _ _)
  refine ⟨?_, ?_, ?_, ?_, ?_, ?_, by decide⟩
  · intro hbad
    simp [analyzeWordFlow, hw, hbad, catchMessage, hsub, apiErrorDisplay]
  · have hshape : apiErrorDisplay status statusText
        = "API Error: ".toList ++ (upstreamMessage status statusText
            ++ ". Please check your OpenAI API key.".toList) := by
      simp [apiErrorDisplay]
    rw [hshape]
    apply containsSub_mono
    have hshape2 : upstreamMessage status statusText
        ++ ". Please check your OpenAI API key.".toList
        = apiErrorMarker ++ (": ".toList ++ ((toString status).toList
            ++ (" ".toList ++ (statusText ++ ". Please check your OpenAI API key.".toList)))) := by
      simp [upstreamMessage]
    rw [hshape2]
    exact containsSub_of_sw (sw_refl_append _ _)
  · intro hok hp hnomark
    simp [analyzeWordFlow, hw, hok, hp, catchMessage, hnomark]
  · intro hnomark
    have hne : ¬ ("TypeError".toList = "SyntaxError".toList) := by decide
    simp [analyzeWordFlow, hw, catchMessage, hnomark, hne]
  · intro h
    have hA : (apiErrorDisplay status statusText).head? = some 'A' := rfl
    rw [h] at hA
    simp [parseErrorMsg] at hA
  · intro h
    have hA : (apiErrorDisplay status statusText).head? = some 'A' := rfl
    rw [h] at hA
    simp [genericErrorMsg] at hA

/-- Witness for C7 at a concrete 404 response. -/
theorem c7_error_taxonomy_witness :
    (analyzeWordFlow ⟨"casa".toList, none, [], []⟩
        (.response 404 "Not Found".toList []) (fun _ => .failure [])).state.errorMsg
      = apiErrorDisplay 404 "Not Found".toList :=
  (c7_error_taxonomy ⟨"casa".toList, none, [], []⟩ (fun _ => .failure [])
      404 "Not Found".toList [] [] [] (by decide)).1 (by decide)

/-- C8 counterexample: a `relatedEnglishWords` value that is a non-empty
string reaches `.map` unconverted at the render boundary — the render throws
instead of treating the field as an empty sequence. -/
theorem c8_counterexample :
    renderListField (.str "hola".toList) = none ∧
    renderListField (.str "hola".toList) ≠ some [] := by
  refine ⟨rfl, ?_⟩
  intro h
  rw [show renderListField (JsValue.str "hola".toList) = none from rfl] at h
  exact Option.noConfusion h

/-- C8 (amended): the render boundary guard `(field || []).map` treats a
falsy field value (undefined, null, false, 0, empty string) as the empty
sequence and maps over an array unchanged, but a truthy non-array value
(e.g. a non-empty string or an object) is passed to `.map` and the render
crashes with a `TypeError`. -/
theorem c8_render_boundary (v : JsValue) :
    (truthy v = false → renderListField v = some []) ∧
    (∀ xs, v = .arr xs → renderListField v = some xs) ∧
    (truthy v = true → (∀ xs, v ≠ .arr xs) → renderListField v = none) := by
  refine ⟨?_, ?_, ?_⟩
  · intro h
    unfold renderListField jsOr
    rw [if_neg (by simp [h])]
  · intro xs hv
    subst hv
    rfl
  · intro ht hne
    unfold renderListField jsOr
    rw [if_pos ht]
    cases v with
    | arr xs => exact absurd rfl (hne xs)
    | undef => rfl
    | null => rfl
    | bool b => rfl
    | num n => rfl
    | str s => rfl
    | obj fields => rfl

/-- Witness for C8: `null` is rendered as the empty sequence. -/
theorem c8_render_boundary_witness : renderListField JsValue.null = some [] :=
  (c8_render_boundary JsValue.null).1 rfl

/-- C9: whenever a run of the analysis flow reports an error, the
recent-searches list is unchanged; the list changes only when the run
succeeds, in which case the error display is empty, a normalized analysis is
stored, and the list equals the documented update of the previous list. -/
theorem c9_recent_on_failure (st : AppState) (fetch : FetchResult)
    (parse : Str → ParseOutcome) :
    ((analyzeWordFlow st fetch parse).state.errorMsg ≠ [] →
      (analyzeWordFlow st fetch parse).state.recent = st.recent) ∧
    ((analyzeWordFlow st fetch parse).state.recent ≠ st.recent →
      (analyzeWordFlow st fetch parse).state.errorMsg = [] ∧
      (analyzeWordFlow st fetch parse).state.analysis.isSome = true ∧
      (analyzeWordFlow st fetch parse).state.recent = updateRecent st.recent st.word) := by
  by_cases hw : trimBoth st.word = []
  · constructor
    · intro _
      simp [analyzeWordFlow, hw]
    · intro hr
      exfalso
      exact hr (by simp [analyzeWordFlow, hw])
  · cases fetch with
    | netError msg =>
      constructor
      · intro _
        simp [analyzeWordFlow, hw]
      · intro hr
        exfalso
        exact hr (by simp [analyzeWordFlow, hw])
    | response status statusText content =>
      by_cases hok : respOk status = true
      · cases hp : parse (cleanedResponse content) with
        | ok fields =>
          constructor
          · intro he
            exfalso
            exact he (by simp [analyzeWordFlow, hw, hok, hp])
          · intro _
            refine ⟨?_, ?_, ?_⟩ <;> simp [analyzeWordFlow, hw, hok, hp]
        | failure pmsg =>
          constructor
          · intro _
            simp [analyzeWordFlow, hw, hok, hp]
          · intro hr
            exfalso
            exact hr (by simp [analyzeWordFlow, hw, hok, hp])
      · constructor
        · intro _
          simp [analyzeWordFlow, hw, hok]
        · intro hr
          exfalso
          exact hr (by simp [analyzeWordFlow, hw, hok])

/-- Witness for C9: a network failure leaves the recent list unchanged. -/
theorem c9_recent_on_failure_witness :
    (analyzeWordFlow ⟨"casa".toList, none, [], ["x".toList]⟩
        (.netError "Failed to fetch".toList) (fun _ => .failure [])).state.recent
      = ["x".toList] :=
  (c9_recent_on_failure ⟨"casa".toList, none, [], ["x".toList]⟩
      (.netError "Failed to fetch".toList) (fun _ => .failure [])).1 (by decide)
